import Mathlib

/-!
Shallow embedding of the GuamRadar village-boundary geometry pipeline
(src/frontend/src/lib/geo.ts and the variant in src/unnamed/part_000).

Coordinates are modelled as exact rationals (the source uses JS numbers);
a point is a (lng, lat) pair in GeoJSON order, matching the source's
`[number, number]` tuples.  Dynamic (`any`-typed) GeoJSON input is modelled
by explicit option/variant types capturing exactly the fields the source
reads (`geo?.features`, `f?.properties?.name`, `f?.geometry`,
`geometry.type`, `geometry.coordinates`).
-/

set_option maxHeartbeats 1000000

namespace GuamRadar

/-- A coordinate pair in GeoJSON `[lng, lat]` order (source: `[number, number]`). -/
abbrev Point : Type := ℚ × ℚ

/-- Bounding box record, fields as in `ringBBox`'s result `{minLat, minLng, maxLat, maxLng}`. -/
structure BBox where
  minLat : ℚ
  minLng : ℚ
  maxLat : ℚ
  maxLng : ℚ
deriving DecidableEq, Repr

/-- JS `Math.min` on two rationals. -/
def qmin (a b : ℚ) : ℚ := if a < b then a else b

/-- JS `Math.max` on two rationals. -/
def qmax (a b : ℚ) : ℚ := if a < b then b else a

/-- One `ringBBox` loop iteration: widen the running box by one `[lng, lat]` point
via the source's guarded assignments (`if (lng < minLng) minLng = lng;` ...). -/
def bboxAddPoint (bb : BBox) (p : Point) : BBox :=
  ⟨if p.2 < bb.minLat then p.2 else bb.minLat,
   if p.1 < bb.minLng then p.1 else bb.minLng,
   if p.2 > bb.maxLat then p.2 else bb.maxLat,
   if p.1 > bb.maxLng then p.1 else bb.maxLng⟩

/-- `ringBBox(ring)` from geo.ts.  The source starts from the inverted infinite box
`{+inf, +inf, -inf, -inf}` and folds min/max over the ring, so for a non-empty ring
the result is the fold starting from the first point's degenerate box.  ℚ has no
infinities, so the empty ring is given a fixed inverted box; like the source's
infinite inverted box it has `bboxArea = 0` and window overlap `0` for every window
with the `if 0 < w` guards below, which is all downstream code observes. -/
def ringBBox (ring : List Point) : BBox :=
  match ring with
  | [] => ⟨1, 1, -1, -1⟩
  | p :: ps => ps.foldl bboxAddPoint ⟨p.2, p.1, p.2, p.1⟩

/-- `bboxIntersectionArea(a, b)` from geo.ts: rectangle intersection area,
`0` when the boxes do not overlap on either axis (`w > 0 && h > 0 ? w * h : 0`). -/
def bboxIntersectionArea (a b : BBox) : ℚ :=
  let x1 := qmax a.minLng b.minLng
  let y1 := qmax a.minLat b.minLat
  let x2 := qmin a.maxLng b.maxLng
  let y2 := qmin a.maxLat b.maxLat
  let w := x2 - x1
  let h := y2 - y1
  if 0 < w ∧ 0 < h then w * h else 0

/-- `bboxArea(bb)` from geo.ts: `max(0, width) * max(0, height)`. -/
def bboxArea (bb : BBox) : ℚ :=
  qmax 0 (bb.maxLng - bb.minLng) * qmax 0 (bb.maxLat - bb.minLat)

/-- `GUAM_MAIN_BB` from geo.ts: the fixed main-island reference window. -/
def GUAM_MAIN_BB : BBox := ⟨13.2, 144.6, 13.75, 144.98⟩

/-- A candidate ring's window-overlap score (the loop's `overlap` variable). -/
def ringOverlap (bb : BBox) (r : List Point) : ℚ :=
  bboxIntersectionArea (ringBBox r) bb

/-- A candidate ring's own bbox area (the loop's `area` variable). -/
def ringArea (r : List Point) : ℚ :=
  bboxArea (ringBBox r)

/-- Overlap-then-area score pair of a candidate ring. -/
def ringScore (bb : BBox) (r : List Point) : ℚ × ℚ :=
  (ringOverlap bb r, ringArea r)

/-- The selection loop's update condition
`overlap > bestOverlap || (overlap === bestOverlap && area > bestArea)`,
read as a strict lexicographic comparison of (overlap, area) pairs. -/
def scoreGt (a b : ℚ × ℚ) : Prop :=
  b.1 < a.1 ∨ (a.1 = b.1 ∧ b.2 < a.2)

instance (a b : ℚ × ℚ) : Decidable (scoreGt a b) := by
  unfold scoreGt; exact inferInstance

/-- One iteration of the fragment-selection loop: state is
`(best, (bestOverlap, bestArea))`. -/
def selectStep (bb : BBox) (st : List Point × ℚ × ℚ) (r : List Point) : List Point × ℚ × ℚ :=
  if scoreGt (ringScore bb r) st.2 then (r, ringScore bb r) else st

/-- The fragment-selection loop of `geoJsonToVillages` (and of `clipToCoastline`'s
MultiPolygon branch): `best = candidateRings[0]; bestOverlap = -1; bestArea = -1;`
then a left-to-right scan.  The source only runs it on a non-empty candidate list
(guarded by `if (!candidateRings.length) return null`); `[]` is returned for the
unreachable empty case. -/
def selectBestRing (cands : List (List Point)) (bb : BBox) : List Point :=
  match cands with
  | [] => []
  | c :: _ => (cands.foldl (selectStep bb) (c, ((-1 : ℚ), (-1 : ℚ)))).1

/- ## Name normalizer -/

/-- JS regex `\w` word character class `[A-Za-z0-9_]` (no unicode flag in the source). -/
def isWordChar (c : Char) : Bool :=
  c.isAlpha || c.isDigit || c == '_'

/-- The letters of the word stripped by `/\bMunicipality\b/gi`, lowercased. -/
def muniChars : List Char := ("municipality").toList

/-- True when the next character (if any) is not a word character, i.e. a JS
word boundary `\b` follows the candidate match. -/
def noWordCharAhead : List Char → Bool
  | [] => true
  | d :: _ => !(isWordChar d)

/-- Left-to-right scan implementing the global replace
`.replace(/\bMunicipality\b/gi, "")`: at each position, if the previous original
character is not a word character (`prevWord = false`, also true at the start),
the next 12 characters case-insensitively spell the word, and no word character
follows them, the 12 characters are removed and the scan resumes after them
(the character before the resume point is the matched final letter, a word
character).  Fuel is the list length, consumed one unit per examined position. -/
def stripMuniGo : Nat → Bool → List Char → List Char
  | 0, _, l => l
  | _ + 1, _, [] => []
  | fuel + 1, prevWord, c :: rest =>
    if !prevWord && ((c :: rest).take 12).map Char.toLower == muniChars
        && noWordCharAhead ((c :: rest).drop 12) then
      stripMuniGo fuel true (rest.drop 11)
    else
      c :: stripMuniGo fuel (isWordChar c) rest

/-- `.replace(/\bMunicipality\b/gi, "")` on a character list. -/
def stripMunicipality (l : List Char) : List Char :=
  stripMuniGo l.length false l

/-- `.replace(/['']/g, "")` — the source's character class holds two straight
ASCII apostrophes (bytes 0x27), so exactly code point 39 is removed. -/
def stripApostrophes (l : List Char) : List Char :=
  l.filter (fun c => !(c.val == 39))

/-- The six successive character-class replaces
`[åÅ]→a`, `[áàâä]→a`, `[éèêë]→e`, `[íìîï]→i`, `[óòôö]→o`, `[úùûü]→u`
as one character map (their domains and outputs are disjoint, so the
sequential composition equals the single map). -/
def foldAccentChar (c : Char) : Char :=
  if c = 'å' ∨ c = 'Å' then 'a'
  else if c = 'á' ∨ c = 'à' ∨ c = 'â' ∨ c = 'ä' then 'a'
  else if c = 'é' ∨ c = 'è' ∨ c = 'ê' ∨ c = 'ë' then 'e'
  else if c = 'í' ∨ c = 'ì' ∨ c = 'î' ∨ c = 'ï' then 'i'
  else if c = 'ó' ∨ c = 'ò' ∨ c = 'ô' ∨ c = 'ö' then 'o'
  else if c = 'ú' ∨ c = 'ù' ∨ c = 'û' ∨ c = 'ü' then 'u'
  else c

/-- Whitespace as trimmed by JS `trim()` and matched by `\s` (the characters
relevant to this dataset: space, tab, LF, VT, FF, CR, NBSP). -/
def isJsSpace (c : Char) : Bool :=
  c == ' ' || c == '\t' || c == '\n' || c == '\r' || c.val == 11 || c.val == 12 || c.val == 160

/-- JS `String.prototype.trim`: drop whitespace from both ends. -/
def trimChars (l : List Char) : List Char :=
  ((l.dropWhile isJsSpace).reverse.dropWhile isJsSpace).reverse

/-- Scan implementing `.replace(/\s+/g, "-")`: each maximal whitespace run
becomes one hyphen (`prevWs` tracks whether the previous character was
part of the current run). -/
def collapseWsGo : Bool → List Char → List Char
  | _, [] => []
  | prevWs, c :: rest =>
    if isJsSpace c then
      if prevWs then collapseWsGo true rest
      else '-' :: collapseWsGo true rest
    else c :: collapseWsGo false rest

/-- `normalizeVillageId(name)` from geo.ts: strip the standalone word
"Municipality", strip apostrophes, fold the listed accented vowels, trim,
lowercase, collapse whitespace runs to hyphens.  `Char.toLower` lowercases
ASCII letters; every non-ASCII character surviving the accent fold in this
dataset is already lowercase. -/
def normalizeVillageId (name : String) : String :=
  String.mk (collapseWsGo false
    (trimChars ((stripApostrophes (stripMunicipality name.toList)).map foldAccentChar)
      |>.map Char.toLower))

/-- `VILLAGE_NAME_FIXES` from geo.ts: correct OSM names to official
guam.gov village names (exact, case-sensitive key lookup). -/
def VILLAGE_NAME_FIXES (s : String) : Option String :=
  if s = ("Agana Heights") then some ("Agaña Heights")
  else if s = ("Asan") then some ("Asan-Maina")
  else if s = ("Tamuning") then some ("Tamuning-Tumon-Harmon")
  else none

/-- The builder's `stripped` value: `rawName.replace(/\bMunicipality\b/gi, "").trim()`. -/
def strippedName (rawName : String) : String :=
  String.mk (trimChars (stripMunicipality rawName.toList))

/-- The builder's `cleanName` value: `VILLAGE_NAME_FIXES[stripped] ?? stripped`. -/
def displayName (rawName : String) : String :=
  (VILLAGE_NAME_FIXES (strippedName rawName)).getD (strippedName rawName)

/- ## Data model -/

/-- The `Village` record of src/frontend/src/types (id, display name, outer ring). -/
structure Village where
  id : String
  name : String
  polygon : List Point
deriving DecidableEq, Repr

/-- A feature's geometry as read by the builder: only the `type` tag and the
`coordinates` array are inspected; every other geometry type takes the
source's final `else return null` branch and is collapsed into `other`.
An absent `coordinates` field behaves like `[]` in the source
(`geom.coordinates?.[0]` and the `for ... of geom.coordinates ?? []` loop
both produce nothing), so `coordinates` is modelled as a plain list. -/
inductive Geometry where
  | polygon (coordinates : List (List Point))
  | multiPolygon (coordinates : List (List (List Point)))
  | other
deriving DecidableEq, Repr

/-- A GeoJSON feature as read by the builder: `f?.properties?.name` (absent or
missing property modelled as `none`; the empty string is falsy and checked
separately) and `f?.geometry`. -/
structure Feature where
  name : Option String
  geometry : Option Geometry
deriving DecidableEq, Repr

/-- The top-level document: `geo?.features` may be absent/malformed (`none`). -/
structure GeoDoc where
  features : Option (List Feature)
deriving DecidableEq, Repr

/-- `toRingGeoJson(coords)`: keep GeoJSON `[lng, lat]` order (elementwise
identity on coordinate pairs). -/
def toRingGeoJson (coords : List Point) : List Point :=
  coords.map (fun p => (p.1, p.2))

/-- Outer-ring candidate extraction of the builder: one ring for a Polygon
(`geom.coordinates?.[0]`, pushed when non-empty), one per part for a
MultiPolygon (`poly?.[0]`, pushed when non-empty).  `other` contributes no
rings (the source returns `null` for it before this point). -/
def candidateRings : Geometry → List (List Point)
  | .polygon cs =>
    match cs.head? with
    | some outer => if outer.isEmpty then [] else [toRingGeoJson outer]
    | none => []
  | .multiPolygon cs =>
    cs.filterMap (fun poly =>
      match poly.head? with
      | some outer => if outer.isEmpty then none else some (toRingGeoJson outer)
      | none => none)
  | .other => []

/-- The body of the builder's `.map` callback from geo.ts: drop features with a
falsy name or geometry, drop the landmass/country labels, drop unsupported
geometry types, drop features with zero usable rings, otherwise emit the
Village with normalized id, corrected display name and the selected best ring. -/
def featureToVillage (f : Feature) : Option Village :=
  match f.name, f.geometry with
  | some rawName, some geom =>
    if rawName = "" then none
    else if rawName = ("Guam") ∨ rawName = ("United States") then none
    else
      match geom with
      | .other => none
      | _ =>
        let cands := candidateRings geom
        if cands.isEmpty then none
        else some ⟨normalizeVillageId rawName, displayName rawName, selectBestRing cands GUAM_MAIN_BB⟩
  | _, _ => none

/-- `geoJsonToVillages(geo)` from geo.ts: `geo?.features ?? []`, then
`.map(...)` followed by `.filter(Boolean)`, i.e. a filterMap over the
feature list. -/
def geoJsonToVillages (geo : GeoDoc) : List Village :=
  (geo.features.getD []).filterMap featureToVillage

/- ## Point-in-ring and point locator -/

/-- One ray-casting edge test of `pointInRing`: the edge runs from vertex `j`
(previous, with wrap-around) to vertex `i` (current); the parity flips when
`yi > lat !== yj > lat && lng < ((xj - xi) * (lat - yi)) / (yj - yi) + xi`. -/
def edgeFlip (lat lng : ℚ) (pi pj : Point) : Bool :=
  (decide (pi.2 > lat) != decide (pj.2 > lat))
    && decide (lng < (pj.1 - pi.1) * (lat - pi.2) / (pj.2 - pi.2) + pi.1)

/-- `pointInRing(lat, lng, ring)` from geo.ts: standard even-odd ray casting,
scanning edges `(i, j)` for `i = 0..n-1` with `j` the previous index
(wrap-around `j = n-1` for `i = 0`).  The division is only reached when the
edge straddles the horizontal line through `lat`, which forces
`pj.2 ≠ pi.2` (ℚ division total anyway). -/
def pointInRing (lat lng : ℚ) (ring : List Point) : Bool :=
  match ring with
  | [] => false
  | p :: ps =>
    let l := p :: ps
    let prevs := (l.getLastD p) :: l.dropLast
    (l.zip prevs).foldl (fun inside pr => if edgeFlip lat lng pr.1 pr.2 then !inside else inside)
      false

/-- `findVillageForPoint(villages, lat, lng)` from geo.ts: first village in
list order whose polygon contains the point, else `null`. -/
def findVillageForPoint : List Village → ℚ → ℚ → Option Village
  | [], _, _ => none
  | v :: rest, lat, lng =>
    if pointInRing lat lng v.polygon then some v else findVillageForPoint rest lat lng

/- ## Ring closure and coastline clipping (src/unnamed/part_000) -/

/-- `ensureClosed(ring)` from src/unnamed/part_000: rings of length < 2 are
returned unchanged; otherwise append a copy of the first vertex when the
first and last vertex differ in either coordinate (exact equality). -/
def ensureClosed (ring : List Point) : List Point :=
  match ring with
  | [] => []
  | [p] => [p]
  | p :: q :: rest =>
    let first := p
    let last := (p :: q :: rest).getLastD p
    if first.1 ≠ last.1 ∨ first.2 ≠ last.2 then (p :: q :: rest) ++ [first]
    else p :: q :: rest

/-- Outcome of the external turf calls inside `clipToCoastline`'s `try` block
(`@turf/intersect` is a third-party library, not part of this repository, so
it is modelled as an explicit parameter): the call sequence either throws,
returns no feature (`null`, empty intersection), or returns a feature whose
geometry is inspected by type. -/
inductive TurfResult where
  | err
  | empty
  | geom (g : Geometry)
deriving DecidableEq, Repr

/-- `clipToCoastline(villageRing, coastlinePoly)` from src/unnamed/part_000,
with the turf intersection outcome passed explicitly: a throw or an empty
intersection returns the original ring; a Polygon result returns its outer
ring `geom.coordinates[0]` (turf never yields an empty coordinates array;
`headD []` stands in for the out-of-bounds index); a MultiPolygon result runs
the same selection loop as the fragment selector over the parts' outer rings
(`poly[0]`, again `headD []` for turf-unreachable empty parts); any other
geometry type returns the original ring. -/
def clipToCoastline (villageRing : List Point) (res : TurfResult) : List Point :=
  match res with
  | .err => villageRing
  | .empty => villageRing
  | .geom (.polygon cs) => cs.headD []
  | .geom (.multiPolygon cs) => selectBestRing (cs.map (fun poly => poly.headD [])) GUAM_MAIN_BB
  | .geom .other => villageRing

/- ## Selector characterization helpers -/

lemma bboxIntersectionArea_nonneg (a b : BBox) : 0 ≤ bboxIntersectionArea a b := by
  simp only [bboxIntersectionArea]
  split
  · next h => exact le_of_lt (mul_pos h.1 h.2)
  · exact le_refl 0

lemma ringOverlap_nonneg (bb : BBox) (r : List Point) : 0 ≤ ringOverlap bb r :=
  bboxIntersectionArea_nonneg _ _

lemma scoreGt_init (bb : BBox) (r : List Point) :
    scoreGt (ringScore bb r) ((-1 : ℚ), (-1 : ℚ)) :=
  Or.inl (lt_of_lt_of_le (by norm_num) (ringOverlap_nonneg bb r))

lemma scoreGt_trans {a b c : ℚ × ℚ} (h1 : scoreGt a b) (h2 : scoreGt b c) : scoreGt a c := by
  unfold scoreGt at h1 h2 ⊢
  rcases h1 with h1 | ⟨h1e, h1l⟩ <;> rcases h2 with h2 | ⟨h2e, h2l⟩
  · exact Or.inl (by linarith)
  · exact Or.inl (by linarith)
  · exact Or.inl (by linarith)
  · exact Or.inr ⟨by linarith, by linarith⟩

lemma scoreGt_resolve {s r b : ℚ × ℚ} (h1 : scoreGt s b) (h2 : ¬ scoreGt r b) : scoreGt s r := by
  unfold scoreGt at h1 h2 ⊢
  push_neg at h2
  obtain ⟨h2a, h2b⟩ := h2
  rcases h1 with h1 | ⟨h1e, h1l⟩
  · exact Or.inl (by linarith)
  · rcases eq_or_lt_of_le h2a with he | hl
    · exact Or.inr ⟨by linarith, by linarith [h2b he]⟩
    · exact Or.inl (by linarith)

lemma selectFold_spec (bb : BBox) (l : List (List Point)) :
    ∀ (b best : List Point) (s : ℚ × ℚ),
      l.foldl (selectStep bb) (b, ringScore bb b) = (best, s) →
      s = ringScore bb best ∧
      ∃ pre post, b :: l = pre ++ best :: post
        ∧ (∀ r ∈ pre, scoreGt (ringScore bb best) (ringScore bb r))
        ∧ (∀ r ∈ post, ¬ scoreGt (ringScore bb r) (ringScore bb best)) := by
  induction l with
  | nil =>
    intro b best s h
    simp only [List.foldl_nil, Prod.mk.injEq] at h
    obtain ⟨rfl, rfl⟩ := h
    exact ⟨rfl, [], [], rfl, by simp, by simp⟩
  | cons r l ih =>
    intro b best s h
    rw [List.foldl_cons] at h
    by_cases hc : scoreGt (ringScore bb r) (ringScore bb b)
    · rw [show selectStep bb (b, ringScore bb b) r = (r, ringScore bb r) from by
        simp [selectStep, hc]] at h
      obtain ⟨hs, pre, post, hdec, hpre, hpost⟩ := ih r best s h
      refine ⟨hs, ?_⟩
      cases pre with
      | nil =>
        simp only [List.nil_append] at hdec
        injection hdec with h1 h2
        subst h1; subst h2
        refine ⟨[b], l, rfl, ?_, hpost⟩
        intro x hx
        simp only [List.mem_singleton] at hx
        subst hx
        exact hc
      | cons p pre2 =>
        simp only [List.cons_append] at hdec
        injection hdec with h1 h2
        subst h1
        have hr : scoreGt (ringScore bb best) (ringScore bb r) := hpre r (by simp)
        refine ⟨b :: r :: pre2, post, by simp [h2], ?_, hpost⟩
        intro x hx
        rcases List.mem_cons.mp hx with rfl | hx2
        · exact scoreGt_trans hr hc
        · rcases List.mem_cons.mp hx2 with rfl | hx3
          · exact hr
          · exact hpre x (by simp [hx3])
    · rw [show selectStep bb (b, ringScore bb b) r = (b, ringScore bb b) from by
        simp [selectStep, hc]] at h
      obtain ⟨hs, pre, post, hdec, hpre, hpost⟩ := ih b best s h
      refine ⟨hs, ?_⟩
      cases pre with
      | nil =>
        simp only [List.nil_append] at hdec
        injection hdec with h1 h2
        subst h1; subst h2
        refine ⟨[], r :: l, rfl, by simp, ?_⟩
        intro x hx
        rcases List.mem_cons.mp hx with rfl | hx2
        · exact hc
        · exact hpost x hx2
      | cons p pre2 =>
        simp only [List.cons_append] at hdec
        injection hdec with h1 h2
        subst h1
        have hb : scoreGt (ringScore bb best) (ringScore bb b) := hpre b (by simp)
        refine ⟨b :: r :: pre2, post, by simp [h2], ?_, hpost⟩
        intro x hx
        rcases List.mem_cons.mp hx with rfl | hx2
        · exact hb
        · rcases List.mem_cons.mp hx2 with rfl | hx3
          · exact scoreGt_resolve hb hc
          · exact hpre x (by simp [hx3])

lemma selectBestRing_spec (cands : List (List Point)) (bb : BBox) (h : cands ≠ []) :
    ∃ pre post, cands = pre ++ selectBestRing cands bb :: post
      ∧ (∀ r ∈ pre, scoreGt (ringScore bb (selectBestRing cands bb)) (ringScore bb r))
      ∧ (∀ r ∈ post, ¬ scoreGt (ringScore bb r) (ringScore bb (selectBestRing cands bb))) := by
  match cands with
  | [] => exact absurd rfl h
  | c :: rest =>
    have h0 : selectStep bb (c, ((-1 : ℚ), (-1 : ℚ))) c = (c, ringScore bb c) := by
      simp [selectStep, scoreGt_init]
    obtain ⟨best, s, heq⟩ : ∃ best s, rest.foldl (selectStep bb) (c, ringScore bb c) = (best, s) :=
      ⟨_, _, rfl⟩
    have hsel : selectBestRing (c :: rest) bb = best := by
      simp only [selectBestRing, List.foldl_cons, h0, heq]
    obtain ⟨hs, pre, post, hdec, hpre, hpost⟩ := selectFold_spec bb rest c best s heq
    rw [hsel]
    exact ⟨pre, post, hdec, hpre, hpost⟩

lemma selectBestRing_mem (cands : List (List Point)) (bb : BBox) (h : cands ≠ []) :
    selectBestRing cands bb ∈ cands := by
  obtain ⟨pre, post, hdec, -, -⟩ := selectBestRing_spec cands bb h
  have hm : selectBestRing cands bb ∈ pre ++ selectBestRing cands bb :: post :=
    List.mem_append_right _ (List.mem_cons_self _ _)
  rw [← hdec] at hm
  exact hm

lemma featureToVillage_none_of_bad (f : Feature)
    (h : f.name = none ∨ f.name = some "" ∨ f.geometry = none
      ∨ ∃ g, f.geometry = some g ∧ candidateRings g = []) :
    featureToVillage f = none := by
  obtain ⟨n, g⟩ := f
  rcases h with h | h | h | ⟨g0, hg, hc⟩
  · simp only at h
    subst h
    rfl
  · simp only at h
    subst h
    cases g with
    | none => rfl
    | some g0 => simp [featureToVillage]
  · simp only at h
    subst h
    cases n <;> rfl
  · simp only at hg
    subst hg
    cases n with
    | none => rfl
    | some n2 => cases g0 <;> simp [featureToVillage, hc]

/- ## Claim theorems -/

/-- C1: On a FeatureCollection with a feature named "Guam" (Polygon), a feature named
"United States", and a feature named "Tamuning" whose MultiPolygon carries a tiny
outer ring far from the reference window and a large outer ring overlapping it,
the builder emits exactly one Village, with id "tamuning" (derived from the raw
name, before the correction table), display name "Tamuning-Tumon-Harmon", and the
large ring as its polygon (the tiny far-away ring is discarded). -/
theorem build_tamuning_scenario :
    geoJsonToVillages ⟨some
      [⟨some ("Guam"), some (.polygon
         [[(144.6, 13.2), (145, 13.2), (145, 13.7), (144.6, 13.7)]])⟩,
       ⟨some ("United States"), some (.polygon
         [[(144, 13), (146, 13), (146, 21), (144, 21)]])⟩,
       ⟨some ("Tamuning"), some (.multiPolygon
         [[[(150, 20), (150.01, 20), (150.01, 20.01), (150, 20.01)]],
          [[(144.7, 13.3), (144.8, 13.3), (144.8, 13.4), (144.7, 13.4)]]])⟩]⟩
    = [⟨("tamuning"), ("Tamuning-Tumon-Harmon"),
        [(144.7, 13.3), (144.8, 13.3), (144.8, 13.4), (144.7, 13.4)]⟩] := by
  with_unfolding_all rfl

set_option maxHeartbeats 8000000 in
/-- C2: For every non-empty candidate list the fragment selector returns an element
of the list such that every earlier candidate has a strictly lexicographically
smaller (overlap, own-area) score and no candidate anywhere has a strictly greater
one: maximal absolute window overlap first, own bbox area on exact overlap ties,
earliest input position on full ties.  Concretely: an exact overlap tie is broken
by the larger own area; a tiny islet fully inside the window (overlap = its whole
area) loses to a ring with greater absolute overlap; a full score tie goes to the
first candidate. -/
theorem selectBestRing_maximizes :
    (∀ (cands : List (List Point)) (bb : BBox), cands ≠ [] →
      ∃ pre post, cands = pre ++ selectBestRing cands bb :: post
        ∧ (∀ r ∈ pre, scoreGt (ringScore bb (selectBestRing cands bb)) (ringScore bb r))
        ∧ (∀ r ∈ post, ¬ scoreGt (ringScore bb r) (ringScore bb (selectBestRing cands bb))))
    ∧ selectBestRing [[(0, 0), (10, 0), (10, 1), (0, 1)], [(0, 0), (50, 0), (50, 1), (0, 1)]]
        ⟨0, 0, 10, 10⟩ = [(0, 0), (50, 0), (50, 1), (0, 1)]
    ∧ ringOverlap ⟨0, 0, 10, 10⟩ [(0, 0), (10, 0), (10, 1), (0, 1)]
        = ringOverlap ⟨0, 0, 10, 10⟩ [(0, 0), (50, 0), (50, 1), (0, 1)]
    ∧ ringArea [(0, 0), (10, 0), (10, 1), (0, 1)] < ringArea [(0, 0), (50, 0), (50, 1), (0, 1)]
    ∧ selectBestRing [[(1, 1), (2, 1), (2, 2), (1, 2)], [(-10, 0), (5, 0), (5, 2), (-10, 2)]]
        ⟨0, 0, 10, 10⟩ = [(-10, 0), (5, 0), (5, 2), (-10, 2)]
    ∧ ringOverlap ⟨0, 0, 10, 10⟩ [(1, 1), (2, 1), (2, 2), (1, 2)]
        = ringArea [(1, 1), (2, 1), (2, 2), (1, 2)]
    ∧ ringOverlap ⟨0, 0, 10, 10⟩ [(1, 1), (2, 1), (2, 2), (1, 2)]
        < ringOverlap ⟨0, 0, 10, 10⟩ [(-10, 0), (5, 0), (5, 2), (-10, 2)]
    ∧ selectBestRing [[(0, 0), (10, 0), (10, 1), (0, 1)], [(0, 1), (10, 1), (10, 0), (0, 0)]]
        ⟨0, 0, 10, 10⟩ = [(0, 0), (10, 0), (10, 1), (0, 1)] := by
  refine ⟨selectBestRing_spec, ?_, ?_, ?_, ?_, ?_, ?_, ?_⟩
  · with_unfolding_all rfl
  · with_unfolding_all rfl
  · with_unfolding_all decide
  · with_unfolding_all rfl
  · with_unfolding_all rfl
  · with_unfolding_all decide
  · with_unfolding_all rfl

/-- Witness: the fragment-selector characterization applied at a concrete
one-candidate input, with the non-emptiness hypothesis discharged. -/
theorem selectBestRing_maximizes_witness :
    ∃ pre post,
      [[((3 : ℚ), (3 : ℚ))]]
        = pre ++ selectBestRing [[((3 : ℚ), (3 : ℚ))]] GUAM_MAIN_BB :: post
      ∧ (∀ r ∈ pre,
          scoreGt (ringScore GUAM_MAIN_BB (selectBestRing [[((3 : ℚ), (3 : ℚ))]] GUAM_MAIN_BB))
            (ringScore GUAM_MAIN_BB r))
      ∧ (∀ r ∈ post,
          ¬ scoreGt (ringScore GUAM_MAIN_BB r)
            (ringScore GUAM_MAIN_BB (selectBestRing [[((3 : ℚ), (3 : ℚ))]] GUAM_MAIN_BB))) :=
  selectBestRing_maximizes.1 [[((3 : ℚ), (3 : ℚ))]] GUAM_MAIN_BB (by simp)

/-- C3: The builder's top-level call is a total function; a malformed or absent
feature list yields the empty village set, and a feature lacking a name, with a
falsy (empty) name, lacking a geometry, or with a geometry yielding zero usable
rings (including every unsupported geometry type) is silently dropped without
affecting sibling features. -/
theorem build_never_fails :
    geoJsonToVillages ⟨none⟩ = []
    ∧ ∀ (pre post : List Feature) (f : Feature),
        (f.name = none ∨ f.name = some "" ∨ f.geometry = none
          ∨ ∃ g, f.geometry = some g ∧ candidateRings g = []) →
        geoJsonToVillages ⟨some (pre ++ f :: post)⟩ = geoJsonToVillages ⟨some (pre ++ post)⟩ := by
  refine ⟨rfl, ?_⟩
  intro pre post f h
  simp [geoJsonToVillages, List.filterMap_append, List.filterMap_cons,
    featureToVillage_none_of_bad f h]

/-- Witness: a feature with no name and no geometry is dropped without effect. -/
theorem build_never_fails_witness :
    geoJsonToVillages ⟨some [⟨none, none⟩]⟩ = geoJsonToVillages ⟨some []⟩ :=
  build_never_fails.2 [] [] ⟨none, none⟩ (Or.inl rfl)

/-- C4: clipToCoastline returns the original ring when the turf intersection
throws, is empty, or yields a geometry that is neither Polygon nor MultiPolygon;
a Polygon result yields that polygon's outer ring; a MultiPolygon result is
resolved by the very selection loop of the fragment selector (absolute overlap,
then own area) against the main-island window. -/
theorem clipToCoastline_spec :
    (∀ ring : List Point,
        clipToCoastline ring .err = ring
        ∧ clipToCoastline ring .empty = ring
        ∧ clipToCoastline ring (.geom .other) = ring)
    ∧ (∀ (ring r : List Point) (rest : List (List Point)),
        clipToCoastline ring (.geom (.polygon (r :: rest))) = r)
    ∧ (∀ (ring : List Point) (cs : List (List (List Point))),
        clipToCoastline ring (.geom (.multiPolygon cs))
          = selectBestRing (cs.map (fun poly => poly.headD [])) GUAM_MAIN_BB) :=
  ⟨fun _ => ⟨rfl, rfl, rfl⟩, fun _ _ _ => rfl, fun _ _ => rfl⟩

/-- C6: The builder is deterministic and order-preserving: equal inputs give equal
outputs, the output is a filterMap of the input feature list (so output order
follows input feature order and depends on nothing but the input), and the output
for concatenated feature lists is the concatenation of the outputs. -/
theorem build_deterministic :
    (∀ geo : GeoDoc, geoJsonToVillages geo = geoJsonToVillages geo)
    ∧ (∀ fs : List Feature, geoJsonToVillages ⟨some fs⟩ = fs.filterMap featureToVillage)
    ∧ (∀ fs1 fs2 : List Feature,
        geoJsonToVillages ⟨some (fs1 ++ fs2)⟩
          = geoJsonToVillages ⟨some fs1⟩ ++ geoJsonToVillages ⟨some fs2⟩) :=
  ⟨fun _ => rfl, fun _ => rfl, fun fs1 fs2 => List.filterMap_append fs1 fs2 _⟩

/-- C7: The id normalizer strips the standalone word "Municipality"
case-insensitively with word-boundary matching: adding the word (in any case,
anywhere as a standalone word) does not change the id, while an attached
occurrence (no word boundary) is kept. -/
theorem normalize_strips_municipality :
    normalizeVillageId ("Hagåtña Municipality") = normalizeVillageId ("Hagåtña")
    ∧ normalizeVillageId ("Hagåtña MUNICIPALITY") = normalizeVillageId ("Hagåtña")
    ∧ normalizeVillageId ("Municipality Hagåtña") = normalizeVillageId ("Hagåtña")
    ∧ normalizeVillageId ("Municipalityville") = ("municipalityville") := by
  refine ⟨?_, ?_, ?_, ?_⟩ <;> with_unfolding_all rfl

/- ## Point locator and degenerate-ring helpers -/

lemma findVillageForPoint_none_iff (villages : List Village) (lat lng : ℚ) :
    findVillageForPoint villages lat lng = none
      ↔ ∀ v ∈ villages, pointInRing lat lng v.polygon = false := by
  induction villages with
  | nil => simp [findVillageForPoint]
  | cons v rest ih =>
    simp only [findVillageForPoint, List.forall_mem_cons]
    by_cases h : pointInRing lat lng v.polygon
    · simp [h]
    · simp only [Bool.not_eq_true] at h
      simp [h, ih]

lemma findVillageForPoint_first (pre post : List Village) (v : Village) (lat lng : ℚ)
    (hpre : ∀ u ∈ pre, pointInRing lat lng u.polygon = false)
    (hv : pointInRing lat lng v.polygon = true) :
    findVillageForPoint (pre ++ v :: post) lat lng = some v := by
  induction pre with
  | nil => simp [findVillageForPoint, hv]
  | cons u pre2 ih =>
    have hu := hpre u (by simp)
    simp only [List.cons_append, findVillageForPoint, hu]
    rw [if_neg (by simp)]
    exact ih (fun x hx => hpre x (by simp [hx]))

lemma findVillageForPoint_some_contains (villages : List Village) (lat lng : ℚ) (v : Village)
    (h : findVillageForPoint villages lat lng = some v) :
    pointInRing lat lng v.polygon = true := by
  induction villages with
  | nil => simp [findVillageForPoint] at h
  | cons u rest ih =>
    by_cases hu : pointInRing lat lng u.polygon
    · simp only [findVillageForPoint, hu, if_pos, Option.some.injEq] at h
      rw [← h]
      exact hu
    · simp only [Bool.not_eq_true] at hu
      simp only [findVillageForPoint, hu, Bool.false_eq_true, if_false] at h
      exact ih h

lemma edgeFlip_comm (lat lng : ℚ) (p q : Point) :
    edgeFlip lat lng p q = edgeFlip lat lng q p := by
  unfold edgeFlip
  by_cases h1 : p.2 > lat <;> by_cases h2 : q.2 > lat
  · simp [h1, h2]
  · have hq : q.2 < p.2 := lt_of_le_of_lt (not_lt.mp h2) h1
    have ha : q.2 - p.2 ≠ 0 := sub_ne_zero_of_ne (ne_of_lt (by linarith))
    have hb : p.2 - q.2 ≠ 0 := sub_ne_zero_of_ne (ne_of_gt hq)
    have heq : (q.1 - p.1) * (lat - p.2) / (q.2 - p.2) + p.1
        = (p.1 - q.1) * (lat - q.2) / (p.2 - q.2) + q.1 := by
      field_simp
      ring
    simp [h1, h2, heq]
  · have hq : p.2 < q.2 := lt_of_le_of_lt (not_lt.mp h1) h2
    have ha : q.2 - p.2 ≠ 0 := sub_ne_zero_of_ne (ne_of_gt hq)
    have hb : p.2 - q.2 ≠ 0 := sub_ne_zero_of_ne (ne_of_lt (by linarith))
    have heq : (q.1 - p.1) * (lat - p.2) / (q.2 - p.2) + p.1
        = (p.1 - q.1) * (lat - q.2) / (p.2 - q.2) + q.1 := by
      field_simp
      ring
    simp [h1, h2, heq]
  · simp [h1, h2]

lemma pointInRing_short (lat lng : ℚ) (ring : List Point) (h : ring.length < 3) :
    pointInRing lat lng ring = false := by
  match ring with
  | [] => rfl
  | [p] =>
    simp [pointInRing, edgeFlip]
  | [p, q] =>
    have hc := edgeFlip_comm lat lng p q
    simp only [pointInRing, List.getLastD_cons, List.getLastD_nil, List.dropLast,
      List.zip, List.zipWith, List.foldl]
    rw [← hc]
    cases hb : edgeFlip lat lng p q <;> simp [hb]
  | p :: q :: r :: rest =>
    exfalso
    simp only [List.length_cons] at h
    omega

/- ## Builder output shape helpers -/

lemma candidateRings_ne_nil (g : Geometry) (r : List Point) (h : r ∈ candidateRings g) :
    r ≠ [] := by
  cases g with
  | polygon cs =>
    cases cs with
    | nil => simp [candidateRings] at h
    | cons outer ctail =>
      simp only [candidateRings, List.head?] at h
      by_cases ho : outer.isEmpty
      · rw [if_pos ho] at h
        simp at h
      · rw [if_neg ho] at h
        simp only [List.mem_singleton] at h
        subst h
        simp only [List.isEmpty_eq_true] at ho
        simp only [toRingGeoJson, ne_eq, List.map_eq_nil_iff]
        exact ho
  | multiPolygon cs =>
    simp only [candidateRings] at h
    obtain ⟨poly, hpoly, hval⟩ := List.mem_filterMap.mp h
    cases poly with
    | nil => simp [List.head?] at hval
    | cons outer ptail =>
      simp only [List.head?] at hval
      by_cases ho : outer.isEmpty
      · rw [if_pos ho] at hval
        cases hval
      · rw [if_neg ho] at hval
        injection hval with hval
        subst hval
        simp only [List.isEmpty_eq_true] at ho
        simp only [toRingGeoJson, ne_eq, List.map_eq_nil_iff]
        exact ho
  | other => simp [candidateRings] at h

lemma featureToVillage_shape (f : Feature) (v : Village)
    (h : featureToVillage f = some v) :
    ∃ geom, f.geometry = some geom ∧ candidateRings geom ≠ []
      ∧ v.polygon = selectBestRing (candidateRings geom) GUAM_MAIN_BB := by
  obtain ⟨n, g⟩ := f
  cases n with
  | none => cases h
  | some rawName =>
    cases g with
    | none => cases h
    | some geom =>
      simp only [featureToVillage] at h
      by_cases h1 : rawName = ""
      · rw [if_pos h1] at h; cases h
      rw [if_neg h1] at h
      by_cases h2 : rawName = ("Guam") ∨ rawName = ("United States")
      · rw [if_pos h2] at h; cases h
      rw [if_neg h2] at h
      refine ⟨geom, rfl, ?_⟩
      cases geom with
      | other => cases h
      | polygon cs =>
        by_cases h3 : (candidateRings (.polygon cs)).isEmpty
        · rw [if_pos h3] at h; cases h
        · rw [if_neg h3] at h
          injection h with h
          subst h
          simp only [List.isEmpty_eq_true] at h3
          exact ⟨h3, rfl⟩
      | multiPolygon cs =>
        by_cases h3 : (candidateRings (.multiPolygon cs)).isEmpty
        · rw [if_pos h3] at h; cases h
        · rw [if_neg h3] at h
          injection h with h
          subst h
          simp only [List.isEmpty_eq_true] at h3
          exact ⟨h3, rfl⟩

/- ## Remaining claim theorems -/

/-- C5: The point locator scans the village list in order and returns the first
village whose polygon contains the point per pointInRing, and returns an explicit
absence (none) exactly when no village's polygon contains the point. -/
theorem locate_first_match :
    (∀ (villages : List Village) (lat lng : ℚ),
        findVillageForPoint villages lat lng = none
          ↔ ∀ v ∈ villages, pointInRing lat lng v.polygon = false)
    ∧ (∀ (pre post : List Village) (v : Village) (lat lng : ℚ),
        (∀ u ∈ pre, pointInRing lat lng u.polygon = false) →
        pointInRing lat lng v.polygon = true →
        findVillageForPoint (pre ++ v :: post) lat lng = some v) :=
  ⟨findVillageForPoint_none_iff, findVillageForPoint_first⟩

/-- Witness: village A is the origin unit square, village B the square with
corners (10,10) and (11,11); the point (lat 10.5, lng 10.5) lies only in B and the
locator returns B; the point (20, 20) lies in neither and the locator returns
none. -/
theorem locate_first_match_witness :
    findVillageForPoint
        [⟨("a"), ("A"), [(0, 0), (1, 0), (1, 1), (0, 1)]⟩,
         ⟨("b"), ("B"), [(10, 10), (11, 10), (11, 11), (10, 11)]⟩] 10.5 10.5
      = some ⟨("b"), ("B"), [(10, 10), (11, 10), (11, 11), (10, 11)]⟩
    ∧ findVillageForPoint
        [⟨("a"), ("A"), [(0, 0), (1, 0), (1, 1), (0, 1)]⟩,
         ⟨("b"), ("B"), [(10, 10), (11, 10), (11, 11), (10, 11)]⟩] 20 20 = none := by
  constructor
  · exact locate_first_match.2
      [⟨("a"), ("A"), [(0, 0), (1, 0), (1, 1), (0, 1)]⟩] []
      ⟨("b"), ("B"), [(10, 10), (11, 10), (11, 11), (10, 11)]⟩ 10.5 10.5
      (by
        intro u hu
        simp only [List.mem_singleton] at hu
        subst hu
        with_unfolding_all rfl)
      (by with_unfolding_all rfl)
  · exact (locate_first_match.1 _ 20 20).mpr
      (by
        intro v hv
        rcases List.mem_cons.mp hv with rfl | hv2
        · with_unfolding_all rfl
        · rcases List.mem_cons.mp hv2 with rfl | hv3
          · with_unfolding_all rfl
          · simp at hv3)

/-- C8: ensureClosed is idempotent, returns rings of length < 2 unchanged, and
appends a copy of the first vertex exactly when the first and last vertex differ
by exact coordinate equality. -/
theorem ensureClosed_spec :
    ∀ ring : List Point,
      ensureClosed (ensureClosed ring) = ensureClosed ring
      ∧ (ring.length < 2 → ensureClosed ring = ring)
      ∧ (∀ p q rest, ring = p :: q :: rest →
          ensureClosed ring = if ring.getLastD p ≠ p then ring ++ [p] else ring) := by
  have hcons : ∀ (p q : Point) (rest : List Point),
      ensureClosed (p :: q :: rest)
        = if (p :: q :: rest).getLastD p ≠ p then (p :: q :: rest) ++ [p]
          else p :: q :: rest := by
    intro p q rest
    have hiff : (p.1 ≠ ((p :: q :: rest).getLastD p).1 ∨ p.2 ≠ ((p :: q :: rest).getLastD p).2)
        ↔ (p :: q :: rest).getLastD p ≠ p := by
      constructor
      · rintro (h | h) he
        · exact h (congrArg Prod.fst he).symm
        · exact h (congrArg Prod.snd he).symm
      · intro h
        by_contra hcon
        push_neg at hcon
        exact h (Prod.ext_iff.mpr ⟨hcon.1.symm, hcon.2.symm⟩)
    simp only [ensureClosed]
    by_cases h : (p :: q :: rest).getLastD p ≠ p
    · rw [if_pos (hiff.mpr h), if_pos h]
    · rw [if_neg fun hc => h (hiff.mp hc), if_neg h]
  have hshort : ∀ ring : List Point, ring.length < 2 → ensureClosed ring = ring := by
    intro ring h
    match ring with
    | [] => rfl
    | [p] => rfl
    | p :: q :: rest =>
      exfalso
      simp only [List.length_cons] at h
      omega
  intro ring
  refine ⟨?_, hshort ring, ?_⟩
  · match ring with
    | [] => rfl
    | [p] => rfl
    | p :: q :: rest =>
      rw [hcons p q rest]
      by_cases h : (p :: q :: rest).getLastD p ≠ p
      · rw [if_pos h]
        have hsh : (p :: q :: rest) ++ [p] = p :: q :: (rest ++ [p]) := by simp
        have hlast : (p :: q :: (rest ++ [p])).getLastD p = p := by
          rw [show p :: q :: (rest ++ [p]) = (p :: q :: rest) ++ [p] from by simp,
            List.getLastD_concat]
        rw [hsh, hcons p q (rest ++ [p]), if_neg fun hcon => hcon hlast]
      · rw [if_neg h, hcons p q rest, if_neg h]
  · rintro p q rest rfl
    exact hcons p q rest

/-- Witness: the closure contract at concrete rings (an open triangle and a
single-vertex ring). -/
theorem ensureClosed_spec_witness :
    ensureClosed (ensureClosed [((0 : ℚ), (0 : ℚ)), (1, 0), (1, 1)])
        = ensureClosed [((0 : ℚ), (0 : ℚ)), (1, 0), (1, 1)]
    ∧ ensureClosed [((5 : ℚ), (5 : ℚ))] = [((5 : ℚ), (5 : ℚ))]
    ∧ ensureClosed [((0 : ℚ), (0 : ℚ)), (1, 0), (1, 1)]
        = if ([((0 : ℚ), (0 : ℚ)), (1, 0), (1, 1)] : List Point).getLastD (0, 0) ≠ (0, 0)
          then [((0 : ℚ), (0 : ℚ)), (1, 0), (1, 1)] ++ [(0, 0)]
          else [((0 : ℚ), (0 : ℚ)), (1, 0), (1, 1)] :=
  ⟨(ensureClosed_spec [((0 : ℚ), (0 : ℚ)), (1, 0), (1, 1)]).1,
   (ensureClosed_spec [((5 : ℚ), (5 : ℚ))]).2.1 (by decide),
   (ensureClosed_spec [((0 : ℚ), (0 : ℚ)), (1, 0), (1, 1)]).2.2 (0, 0) (1, 0) [(1, 1)] rfl⟩

/-- C9 counterexample: a Polygon feature whose outer ring has a single vertex is
emitted as a Village whose polygon has one vertex — the builder does not enforce
the claimed minimum of three distinct vertices. -/
theorem build_emits_degenerate_ring :
    geoJsonToVillages ⟨some [⟨some ("Dededo"), some (.polygon [[(144.7, 13.3)]])⟩]⟩
      = [⟨("dededo"), ("Dededo"), [(144.7, 13.3)]⟩]
    ∧ ([((144.7 : ℚ), (13.3 : ℚ))] : List Point).length < 3 := by
  constructor
  · with_unfolding_all rfl
  · decide

/-- C9 amended: every Village emitted by the builder has a non-empty polygon ring
(the builder pushes only non-empty candidate rings and selects among them). -/
theorem build_polygons_nonempty :
    ∀ (geo : GeoDoc) (v : Village), v ∈ geoJsonToVillages geo → v.polygon ≠ [] := by
  intro geo v hv
  obtain ⟨f, hf, hfv⟩ := List.mem_filterMap.mp hv
  obtain ⟨geom, hg, hne, hpoly⟩ := featureToVillage_shape f v hfv
  rw [hpoly]
  exact candidateRings_ne_nil geom _ (selectBestRing_mem _ GUAM_MAIN_BB hne)

/-- Witness: the nonemptiness invariant at a concrete one-feature document. -/
theorem build_polygons_nonempty_witness :
    Village.polygon ⟨("yona"), ("Yona"), [((1 : ℚ), (1 : ℚ)), (2, 1), (2, 2)]⟩ ≠ [] := by
  apply build_polygons_nonempty
    ⟨some [⟨some ("Yona"), some (.polygon [[(1, 1), (2, 1), (2, 2)]])⟩]⟩
  have h : geoJsonToVillages
      ⟨some [⟨some ("Yona"), some (.polygon [[(1, 1), (2, 1), (2, 2)]])⟩]⟩
      = [⟨("yona"), ("Yona"), [((1 : ℚ), (1 : ℚ)), (2, 1), (2, 2)]⟩] := by
    with_unfolding_all rfl
  rw [h]
  exact List.mem_singleton.mpr rfl

/-- C10: A ring with fewer than three vertices contains no point under the
ray-casting test, so the point locator can only ever return a village whose
polygon has at least three vertices. -/
theorem pointInRing_degenerate :
    (∀ (lat lng : ℚ) (ring : List Point), ring.length < 3 → pointInRing lat lng ring = false)
    ∧ (∀ (villages : List Village) (lat lng : ℚ) (v : Village),
        findVillageForPoint villages lat lng = some v → 3 ≤ v.polygon.length) := by
  refine ⟨fun lat lng ring h => pointInRing_short lat lng ring h, ?_⟩
  intro villages lat lng v h
  by_contra hlt
  push_neg at hlt
  have hc := findVillageForPoint_some_contains villages lat lng v h
  rw [pointInRing_short lat lng v.polygon hlt] at hc
  exact Bool.false_ne_true hc

/-- Witness: a one-vertex ring contains no point; a locator hit on a concrete
square village certifies its polygon has at least three vertices. -/
theorem pointInRing_degenerate_witness :
    pointInRing 0 0 [((5 : ℚ), (5 : ℚ))] = false
    ∧ 3 ≤ (Village.polygon ⟨("b"), ("B"), [((10 : ℚ), 10), (11, 10), (11, 11), (10, 11)]⟩).length := by
  constructor
  · exact pointInRing_degenerate.1 0 0 [((5 : ℚ), (5 : ℚ))] (by decide)
  · exact pointInRing_degenerate.2
      [⟨("b"), ("B"), [((10 : ℚ), 10), (11, 10), (11, 11), (10, 11)]⟩] 10.5 10.5
      ⟨("b"), ("B"), [((10 : ℚ), 10), (11, 10), (11, 11), (10, 11)]⟩
      (by with_unfolding_all rfl)

end GuamRadar
